/-
  Verification of the cralph iteration controller, path configuration
  and cancellation state against its specification.

  The definitions below are shallow embeddings of the TypeScript source
  (src/runner.ts, src/paths.ts, src/state.ts).  Effects are made explicit:
  subprocess results and file-system facts are oracle parameters, the
  mutable runner/log/shutdown state is passed explicitly, and JavaScript
  string primitives (String.prototype.includes, trim, replace-first,
  node's path.resolve for POSIX paths) are implemented as executable
  Lean functions over character lists.
-/
import Mathlib

namespace Cralph

/-! ## JavaScript string primitives -/

/-- One step of substring search: `String.prototype.includes(needle)`
    over character lists, scanning every start position of the haystack. -/
def listIncludes (needle : List Char) : List Char → Bool
  | [] => needle.isPrefixOf []
  | c :: t => needle.isPrefixOf (c :: t) || listIncludes needle t

/-- Embedding of JavaScript `haystack.includes(needle)`. -/
def jsIncludes (haystack needle : String) : Bool :=
  listIncludes needle.toList haystack.toList

theorem isPrefixOf_iff_exists (n : List Char) :
    ∀ h : List Char, n.isPrefixOf h = true ↔ ∃ t, h = n ++ t := by
  induction n with
  | nil =>
    intro h
    simp [List.isPrefixOf]
  | cons c n ih =>
    intro h
    cases h with
    | nil =>
      simp [List.isPrefixOf]
    | cons d t =>
      simp only [List.isPrefixOf, Bool.and_eq_true, beq_iff_eq, ih t]
      constructor
      · rintro ⟨rfl, u, rfl⟩
        exact ⟨u, rfl⟩
      · rintro ⟨u, hu⟩
        cases hu
        exact ⟨rfl, u, rfl⟩

theorem listIncludes_iff_exists (n : List Char) :
    ∀ h : List Char, listIncludes n h = true ↔ ∃ pre post, h = pre ++ n ++ post := by
  intro h
  induction h with
  | nil =>
    simp only [listIncludes, isPrefixOf_iff_exists]
    constructor
    · rintro ⟨t, ht⟩
      exact ⟨[], t, by simpa using ht⟩
    · rintro ⟨pre, post, hp⟩
      rcases List.append_eq_nil.mp (List.append_eq_nil.mp hp.symm).1 with ⟨h1, h2⟩
      exact ⟨post, by simp [h2, (List.append_eq_nil.mp hp.symm).2]⟩
  | cons c t ih =>
    simp only [listIncludes, Bool.or_eq_true, isPrefixOf_iff_exists, ih]
    constructor
    · rintro (⟨u, hu⟩ | ⟨pre, post, hp⟩)
      · exact ⟨[], u, by simpa using hu⟩
      · exact ⟨c :: pre, post, by simp [hp]⟩
    · rintro ⟨pre, post, hp⟩
      cases pre with
      | nil => exact Or.inl ⟨post, by simpa using hp⟩
      | cons d pre =>
        right
        refine ⟨pre, post, ?_⟩
        have := hp
        simp only [List.cons_append] at this
        exact (List.cons.injEq .. ▸ this).2

/-! ## Iteration controller data model (src/runner.ts) -/

/-- The fixed completion sentinel (src/runner.ts, `COMPLETION_SIGNAL`). -/
def COMPLETION_SIGNAL : String := "<promise>COMPLETE</promise>"

/-- Observable behaviour of one agent subprocess invocation
    (captured stdout, captured stderr, exit code). -/
structure AgentResponse where
  stdout : String
  stderr : String
  exitCode : Int
deriving DecidableEq, Repr

/-- Result record returned by `runIteration` (src/types.ts `IterationResult`). -/
structure IterationResult where
  exitCode : Int
  output : String
  isComplete : Bool
deriving DecidableEq, Repr

/-- Mutable runner state (src/types.ts `RunnerState`); the log file is
    modelled as the list of appended messages (timestamps elided). -/
structure RunnerState where
  iteration : Nat
  log : List String
deriving DecidableEq, Repr

/-- Embedding of `runIteration` (src/runner.ts): increments the iteration
    counter, logs the start marker and the captured output, concatenates
    stdout and stderr, and classifies completion by literal substring
    containment of `COMPLETION_SIGNAL`. -/
def runIteration (resp : AgentResponse) (state : RunnerState) : RunnerState × IterationResult :=
  let st1 : RunnerState := { state with iteration := state.iteration + 1 }
  let st2 : RunnerState :=
    { st1 with log := st1.log ++ ["Iteration " ++ toString st1.iteration ++ " starting"] }
  let output := resp.stdout ++ resp.stderr
  let st3 : RunnerState := { st2 with log := st2.log ++ [output] }
  let isComplete := jsIncludes output COMPLETION_SIGNAL
  (st3, { exitCode := resp.exitCode, output := output, isComplete := isComplete })

/-- C1: `runIteration` sets `isComplete` to true exactly when the
    concatenated stdout+stderr contains the literal sentinel
    `<promise>COMPLETE</promise>` anywhere; case or whitespace near-misses
    do not signal completion. -/
theorem completion_detection_exact_substring (resp : AgentResponse) (state : RunnerState) :
    ((runIteration resp state).2.isComplete = true ↔
      ∃ pre post, (resp.stdout ++ resp.stderr).toList =
        pre ++ COMPLETION_SIGNAL.toList ++ post)
    ∧ (runIteration { stdout := "<promise>complete</promise>", stderr := "", exitCode := 0 }
        state).2.isComplete = false
    ∧ (runIteration { stdout := "<promise> COMPLETE </promise>", stderr := "", exitCode := 0 }
        state).2.isComplete = false := by
  refine ⟨?_, ?_, ?_⟩
  · show jsIncludes (resp.stdout ++ resp.stderr) COMPLETION_SIGNAL = true ↔ _
    exact listIncludes_iff_exists _ _
  · show jsIncludes ("<promise>complete</promise>" ++ "") COMPLETION_SIGNAL = false
    decide
  · show jsIncludes ("<promise> COMPLETE </promise>" ++ "") COMPLETION_SIGNAL = false
    decide

/-! ## Commit step and main loop (src/runner.ts) -/

/-- Observable outcome of the version-control commit subprocess:
    either the commit process exits with a code, or spawning/awaiting
    throws an exception with a message. -/
inductive CommitOutcome where
  | exit (code : Int)
  | thrown (msg : String)
deriving DecidableEq, Repr

/-- Embedding of `tryCommitProgress` (src/runner.ts): best effort; a zero
    exit logs the commit message, a non-zero exit logs a no-changes note,
    and a thrown error is caught and logged.  Never affects anything else. -/
def tryCommitProgress (outcome : CommitOutcome) (state : RunnerState) : RunnerState :=
  match outcome with
  | .exit code =>
    if code = 0 then
      { state with log := state.log ++
          ["Committed: chore(ralph): iteration " ++ toString state.iteration ++ " progress"] }
    else
      { state with log := state.log ++
          ["No changes to commit for iteration " ++ toString state.iteration] }
  | .thrown msg =>
    { state with log := state.log ++ ["Commit failed: " ++ msg] }

/-- Embedding of the `while (true)` loop of `run` (src/runner.ts), with
    explicit fuel standing for the number of loop passes we observe.
    `script k` is the agent response to the (k+1)-st invocation and
    `commits k` the commit outcome after it.  `none` means the loop was
    still running after `fuel` passes; `some s` means it broke out of the
    loop with final state `s`. -/
def runLoop (script : Nat → AgentResponse) (commits : Nat → CommitOutcome) :
    Nat → RunnerState → Option RunnerState
  | 0, _ => none
  | Nat.succ f, state =>
    let step := runIteration (script state.iteration) state
    let st2 := tryCommitProgress (commits state.iteration) step.1
    if step.2.isComplete then some st2
    else runLoop script commits f st2

/-- `run` starts the loop from a fresh state with `iteration = 0`
    (src/runner.ts `initRunner`). -/
def runFromStart (script : Nat → AgentResponse) (commits : Nat → CommitOutcome)
    (fuel : Nat) : Option RunnerState :=
  runLoop script commits fuel { iteration := 0, log := [] }

theorem tryCommitProgress_iteration (o : CommitOutcome) (s : RunnerState) :
    (tryCommitProgress o s).iteration = s.iteration := by
  cases o with
  | exit code =>
    by_cases h : code = 0 <;> simp [tryCommitProgress, h]
  | thrown msg => rfl

theorem runIteration_iteration (resp : AgentResponse) (s : RunnerState) :
    (runIteration resp s).1.iteration = s.iteration + 1 := rfl

theorem runIteration_isComplete (resp : AgentResponse) (s : RunnerState) :
    (runIteration resp s).2.isComplete = jsIncludes (resp.stdout ++ resp.stderr) COMPLETION_SIGNAL := rfl

/-- Auxiliary induction for C2, generalised over the starting iteration
    count: if none of the next `N` invocations signals completion and the
    one after them does, the loop performs exactly `N+1` more passes. -/
theorem runLoop_progress (script : Nat → AgentResponse) (commits : Nat → CommitOutcome) :
    ∀ (N i fuel : Nat) (st : RunnerState), st.iteration = i →
      (∀ k, k < N →
        jsIncludes ((script (i + k)).stdout ++ (script (i + k)).stderr) COMPLETION_SIGNAL = false) →
      jsIncludes ((script (i + N)).stdout ++ (script (i + N)).stderr) COMPLETION_SIGNAL = true →
      N + 1 ≤ fuel →
      ∃ final, runLoop script commits fuel st = some final ∧ final.iteration = i + N + 1 := by
  intro N
  induction N with
  | zero =>
    intro i fuel st hst hmiss hhit hfuel
    obtain ⟨f, rfl⟩ : ∃ f, fuel = f + 1 := ⟨fuel - 1, by omega⟩
    refine ⟨tryCommitProgress (commits st.iteration) (runIteration (script st.iteration) st).1, ?_, ?_⟩
    · simp only [runLoop, runIteration_isComplete, hst]
      rw [if_pos]
      simpa using hhit
    · rw [tryCommitProgress_iteration, runIteration_iteration, hst]
  | succ N ih =>
    intro i fuel st hst hmiss hhit hfuel
    obtain ⟨f, rfl⟩ : ∃ f, fuel = f + 1 := ⟨fuel - 1, by omega⟩
    have hmiss0 := hmiss 0 (Nat.succ_pos N)
    simp only [Nat.add_zero] at hmiss0
    have hstep : runLoop script commits (f + 1) st =
        runLoop script commits f
          (tryCommitProgress (commits st.iteration) (runIteration (script st.iteration) st).1) := by
      simp only [runLoop, runIteration_isComplete, hst]
      rw [if_neg]
      simp [hmiss0]
    rw [hstep]
    have hiter : (tryCommitProgress (commits st.iteration)
        (runIteration (script st.iteration) st).1).iteration = i + 1 := by
      rw [tryCommitProgress_iteration, runIteration_iteration, hst]
    obtain ⟨final, hrun, hfin⟩ := ih (i + 1) f _ hiter
      (fun k hk => by
        have := hmiss (k + 1) (by omega)
        simpa [Nat.add_assoc, Nat.add_comm 1 k] using this)
      (by
        have : i + 1 + N = i + (N + 1) := by omega
        rw [this]
        exact hhit)
      (by omega)
    exact ⟨final, hrun, by omega⟩

/-- C2: if the agent produces non-completion output on its first `N`
    invocations and completion output on invocation `N+1`, then the run
    performs exactly `N+1` iterations (the final state's iteration counter
    is `N+1`) and the loop terminates by breaking. -/
theorem run_performs_exactly_succ_iterations
    (N : Nat) (script : Nat → AgentResponse) (commits : Nat → CommitOutcome) (fuel : Nat)
    (hmiss : ∀ k, k < N →
      jsIncludes ((script k).stdout ++ (script k).stderr) COMPLETION_SIGNAL = false)
    (hhit : jsIncludes ((script N).stdout ++ (script N).stderr) COMPLETION_SIGNAL = true)
    (hfuel : N + 1 ≤ fuel) :
    ∃ final, runFromStart script commits fuel = some final ∧ final.iteration = N + 1 := by
  have := runLoop_progress script commits N 0 fuel { iteration := 0, log := [] } rfl
    (by simpa using hmiss) (by simpa using hhit) hfuel
  simpa [runFromStart] using this

/-- Witness for C2 at a concrete scripted agent (`N = 1`). -/
theorem run_performs_exactly_succ_iterations_witness :
    ∃ final, runFromStart
      (fun k => if k = 0 then { stdout := "working", stderr := "", exitCode := 1 }
                else { stdout := "done <promise>COMPLETE</promise>", stderr := "", exitCode := 0 })
      (fun _ => CommitOutcome.thrown "git not found") 2 = some final ∧
      final.iteration = 2 := by
  exact run_performs_exactly_succ_iterations 1 _ _ 2
    (fun k hk => by
      have hk0 : k = 0 := by omega
      subst hk0
      decide)
    (by decide)
    (by omega)

/-- C3: in every loop pass, the agent's exit code and the commit step's
    outcome (including failure) are only logged — the captured output and
    one commit log line are always appended — and whether the loop breaks
    or proceeds to the next pass is decided solely by `isComplete`, which
    itself depends only on the sentinel being a substring of the captured
    output (never on the exit code or on the commit outcome). -/
theorem loop_exit_governed_only_by_sentinel
    (script : Nat → AgentResponse) (commits : Nat → CommitOutcome) (f : Nat) (st : RunnerState) :
    ((runIteration (script st.iteration) st).2.isComplete = true →
      runLoop script commits (f + 1) st =
        some (tryCommitProgress (commits st.iteration) (runIteration (script st.iteration) st).1))
    ∧ ((runIteration (script st.iteration) st).2.isComplete = false →
      runLoop script commits (f + 1) st =
        runLoop script commits f
          (tryCommitProgress (commits st.iteration) (runIteration (script st.iteration) st).1))
    ∧ (runIteration (script st.iteration) st).2.isComplete =
        jsIncludes ((script st.iteration).stdout ++ (script st.iteration).stderr) COMPLETION_SIGNAL
    ∧ ∃ commitLine,
        (tryCommitProgress (commits st.iteration) (runIteration (script st.iteration) st).1).log =
          st.log ++ ["Iteration " ++ toString (st.iteration + 1) ++ " starting",
            (script st.iteration).stdout ++ (script st.iteration).stderr, commitLine] := by
  refine ⟨?_, ?_, rfl, ?_⟩
  · intro h
    simp [runLoop, h]
  · intro h
    simp [runLoop, h]
  · cases hco : commits (st.iteration) with
    | exit code =>
      by_cases hc : code = 0
      · exact ⟨"Committed: chore(ralph): iteration " ++ toString (st.iteration + 1) ++ " progress",
          by simp [tryCommitProgress, runIteration, hc]⟩
      · exact ⟨"No changes to commit for iteration " ++ toString (st.iteration + 1),
          by simp [tryCommitProgress, runIteration, hc]⟩
    | thrown msg =>
      exact ⟨"Commit failed: " ++ msg, by simp [tryCommitProgress, runIteration]⟩

/-- Witness for C3 at a concrete input: the agent exits non-zero and the
    commit step throws, yet the loop still breaks because the sentinel is
    present in the output. -/
theorem loop_exit_governed_only_by_sentinel_witness :
    runLoop (fun _ => { stdout := "x <promise>COMPLETE</promise>", stderr := "", exitCode := 1 })
      (fun _ => CommitOutcome.thrown "git: permission denied") 1 { iteration := 0, log := [] } =
      some (tryCommitProgress (CommitOutcome.thrown "git: permission denied")
        (runIteration { stdout := "x <promise>COMPLETE</promise>", stderr := "", exitCode := 1 }
          { iteration := 0, log := [] }).1) :=
  (loop_exit_governed_only_by_sentinel
    (fun _ => { stdout := "x <promise>COMPLETE</promise>", stderr := "", exitCode := 1 })
    (fun _ => CommitOutcome.thrown "git: permission denied") 0 { iteration := 0, log := [] }).1
    (by decide)

/-! ## TODO document classification (src/runner.ts) -/

/-- JavaScript whitespace as recognised by `String.prototype.trim`
    (space, tab, line/page breaks, NBSP, BOM, line/paragraph separators). -/
def isJsWhitespace (c : Char) : Bool :=
  c = ' ' || c = '\t' || c = '\n' || c = '\r' || c = '\x0b' || c = '\x0c' ||
  c = '\u00A0' || c = '\uFEFF' || c = '\u2028' || c = '\u2029'

/-- Embedding of JavaScript `s.trim()`. -/
def jsTrim (s : String) : String :=
  String.mk (((s.toList.dropWhile isJsWhitespace).reverse.dropWhile isJsWhitespace).reverse)

/-- The fixed initial TODO template (src/runner.ts, `INITIAL_TODO_CONTENT`). -/
def INITIAL_TODO_CONTENT : String :=
  "# Tasks\n\n- [ ] Task 1\n- [ ] Task 2\n\n# Notes\n\n_None yet_\n"

/-- Embedding of `isTodoClean` (src/runner.ts): a missing file is clean;
    otherwise the content, after trimming, must equal the trimmed template. -/
def isTodoClean (content : Option String) : Bool :=
  match content with
  | none => true
  | some c => decide (jsTrim c = jsTrim INITIAL_TODO_CONTENT)

/-- Resetting the TODO document overwrites it with the fixed initial
    template unconditionally (src/runner.ts `initRunner`, reset branch). -/
def todoReset (_ : Option String) : Option String :=
  some INITIAL_TODO_CONTENT

/-- C5: a document classifies as clean exactly when its trimmed content is
    equal to the trimmed fixed template; any trimmed difference classifies
    as dirty; and resetting (overwriting with the template) always
    restores the clean classification. -/
theorem todo_clean_dirty_classification (c : String) (d : Option String) :
    (isTodoClean (some c) = true ↔ jsTrim c = jsTrim INITIAL_TODO_CONTENT)
    ∧ (jsTrim c ≠ jsTrim INITIAL_TODO_CONTENT → isTodoClean (some c) = false)
    ∧ isTodoClean (todoReset d) = true := by
  refine ⟨by simp [isTodoClean], ?_, by simp [isTodoClean, todoReset]⟩
  intro h
  simp [isTodoClean, h]

/-- Witness for C5: a document with one extra character beyond the
    template is dirty, and resetting a dirty document restores clean. -/
theorem todo_clean_dirty_classification_witness :
    isTodoClean (some (INITIAL_TODO_CONTENT ++ "!")) = false
    ∧ isTodoClean (todoReset (some (INITIAL_TODO_CONTENT ++ "!"))) = true :=
  ⟨(todo_clean_dirty_classification (INITIAL_TODO_CONTENT ++ "!") none).2.1 (by decide),
   (todo_clean_dirty_classification (INITIAL_TODO_CONTENT ++ "!")
     (some (INITIAL_TODO_CONTENT ++ "!"))).2.2⟩

/-! ## Shutdown flag and cancellation (src/state.ts) -/

/-- The module-level mutable state of src/state.ts, passed explicitly. -/
structure GlobalState where
  shuttingDown : Bool
deriving DecidableEq, Repr

/-- Embedding of `setShuttingDown` (src/state.ts). -/
def setShuttingDown (gs : GlobalState) : GlobalState :=
  { gs with shuttingDown := true }

/-- Embedding of `isShuttingDown` (src/state.ts). -/
def isShuttingDown (gs : GlobalState) : Bool :=
  gs.shuttingDown

/-- Embedding of `resetShutdownState` (src/state.ts, test-only). -/
def resetShutdownState (gs : GlobalState) : GlobalState :=
  { gs with shuttingDown := false }

/-- Possible values returned by a consola prompt with `cancel: "symbol"`:
    the cancelled sentinel Symbol, or an ordinary value (text, confirm
    boolean, select string, multiselect string list). -/
inductive PromptResult where
  | sym
  | str (s : String)
  | bool (b : Bool)
  | strs (l : List String)
deriving DecidableEq, Repr

/-- `typeof result === "symbol"` for a prompt result. -/
def isSymbol : PromptResult → Bool
  | .sym => true
  | _ => false

/-- Embedding of `throwIfCancelled` (src/state.ts): throws an error with
    the fixed message when the result is the cancelled Symbol or the
    shutdown flag is set; otherwise returns normally, leaving the global
    state untouched. -/
def throwIfCancelled (gs : GlobalState) (result : PromptResult) : Except String GlobalState :=
  if isSymbol result || isShuttingDown gs then Except.error "Selection cancelled"
  else Except.ok gs

/-- C8: `throwIfCancelled` throws exactly the error "Selection cancelled"
    if and only if the prompt result is a Symbol or the shutdown flag is
    set; otherwise it returns normally with the state unchanged. -/
theorem throwIfCancelled_iff_symbol_or_shutdown (gs : GlobalState) (r : PromptResult) :
    (throwIfCancelled gs r = Except.error "Selection cancelled" ↔
      (isSymbol r = true ∨ isShuttingDown gs = true))
    ∧ (isSymbol r = false → isShuttingDown gs = false → throwIfCancelled gs r = Except.ok gs) := by
  constructor
  · by_cases hs : isSymbol r = true
    · simp [throwIfCancelled, hs]
    · by_cases hd : isShuttingDown gs = true <;>
        simp [throwIfCancelled, hs, hd]
  · intro h1 h2
    simp [throwIfCancelled, h1, h2]

/-- Witness for C8: a concrete non-symbol result with the flag clear
    returns normally, and the cancelled Symbol with the flag clear throws. -/
theorem throwIfCancelled_iff_symbol_or_shutdown_witness :
    throwIfCancelled { shuttingDown := false } (PromptResult.str "run") =
      Except.ok { shuttingDown := false }
    ∧ throwIfCancelled { shuttingDown := false } PromptResult.sym =
      Except.error "Selection cancelled" :=
  ⟨(throwIfCancelled_iff_symbol_or_shutdown { shuttingDown := false }
      (PromptResult.str "run")).2 rfl rfl,
   (throwIfCancelled_iff_symbol_or_shutdown { shuttingDown := false }
      PromptResult.sym).1.mpr (Or.inl rfl)⟩

/-- `n` successive calls of `setShuttingDown` starting from `gs`. -/
def iterateSetShuttingDown : Nat → GlobalState → GlobalState
  | 0, gs => gs
  | Nat.succ n, gs => setShuttingDown (iterateSetShuttingDown n gs)

/-- C9: calling `setShuttingDown` any number `n ≥ 1` of times equals
    calling it once; once set, the flag reads true after every further
    sequence of `setShuttingDown` calls; and it stays that way until
    `resetShutdownState` clears it. -/
theorem setShuttingDown_idempotent (n : Nat) (gs : GlobalState) (h : 1 ≤ n) :
    iterateSetShuttingDown n gs = setShuttingDown gs
    ∧ (∀ m, isShuttingDown (iterateSetShuttingDown m (setShuttingDown gs)) = true)
    ∧ isShuttingDown (resetShutdownState (iterateSetShuttingDown n gs)) = false := by
  have hall : ∀ k g, 1 ≤ k → iterateSetShuttingDown k g = setShuttingDown g := by
    intro k
    induction k with
    | zero => intro g hg; omega
    | succ k ih =>
      intro g hg
      cases Nat.eq_zero_or_pos k with
      | inl h0 => subst h0; rfl
      | inr hpos =>
        show setShuttingDown (iterateSetShuttingDown k g) = setShuttingDown g
        rw [ih g hpos]
        rfl

  refine ⟨hall n gs h, ?_, ?_⟩
  · intro m
    cases m with
    | zero => rfl
    | succ m => rw [show iterateSetShuttingDown (m + 1) (setShuttingDown gs) =
        setShuttingDown (iterateSetShuttingDown m (setShuttingDown gs)) from rfl]; rfl
  · rw [hall n gs h]
    rfl

/-- Witness for C9 at `n = 3`. -/
theorem setShuttingDown_idempotent_witness :
    iterateSetShuttingDown 3 { shuttingDown := false } =
      setShuttingDown { shuttingDown := false }
    ∧ isShuttingDown (iterateSetShuttingDown 2 (setShuttingDown { shuttingDown := false })) = true :=
  ⟨(setShuttingDown_idempotent 3 { shuttingDown := false } (by omega)).1,
   (setShuttingDown_idempotent 3 { shuttingDown := false } (by omega)).2.1 2⟩

/-! ## Authentication check (src/runner.ts) -/

/-- Six hours in milliseconds (src/runner.ts, `AUTH_CACHE_TTL_MS`). -/
def AUTH_CACHE_TTL_MS : Int := 6 * 60 * 60 * 1000

/-- Embedding of `isAuthCacheValid` (src/runner.ts): the cache is the
    optional stored success timestamp (absent or unreadable maps to
    `none`, the catch branch); it is valid when `now - cachedAt` is below
    the six-hour TTL. -/
def isAuthCacheValid (cache : Option Int) (now : Int) : Bool :=
  match cache with
  | none => false
  | some cachedAt => decide (now - cachedAt < AUTH_CACHE_TTL_MS)

/-- The four authentication-error markers scanned for in the combined
    output of the auth probe (src/runner.ts `checkClaudeAuth`). -/
def authErrorIn (output : String) : Bool :=
  jsIncludes output "authentication_error" ||
  jsIncludes output "OAuth token has expired" ||
  jsIncludes output "Please run /login" ||
  jsIncludes output "401"

/-- Embedding of `checkClaudeAuth` (src/runner.ts).  `spawn` is the
    observable behaviour of the probe subprocess (`none` when spawning
    throws).  Returns the boolean result together with the cache state
    afterwards (`some now` records a fresh success timestamp). -/
def checkClaudeAuth (cache : Option Int) (now : Int) (spawn : Option AgentResponse) :
    Bool × Option Int :=
  if isAuthCacheValid cache now then (true, cache)
  else
    match spawn with
    | none => (false, cache)
    | some resp =>
      let output := resp.stdout ++ resp.stderr
      if authErrorIn output then (false, cache)
      else if resp.exitCode = 0 then (true, some now)
      else (false, cache)

/-- C10: with an invalid cache, any auth-error marker in the combined
    output forces a `false` result even on exit code 0; a valid cached
    timestamp (one with `now - cachedAt` under six hours) yields `true`
    without consulting the subprocess at all; the result is `true` only in
    those two situations; and a marker-free exit 0 refreshes the cache. -/
theorem checkClaudeAuth_auth_errors
    (cache : Option Int) (now : Int) (resp : AgentResponse) (spawn : Option AgentResponse) :
    (isAuthCacheValid cache now = false → authErrorIn (resp.stdout ++ resp.stderr) = true →
      checkClaudeAuth cache now (some resp) = (false, cache))
    ∧ (isAuthCacheValid cache now = true → checkClaudeAuth cache now spawn = (true, cache))
    ∧ ((checkClaudeAuth cache now spawn).1 = true ↔
        (isAuthCacheValid cache now = true ∨
          ∃ r, spawn = some r ∧ authErrorIn (r.stdout ++ r.stderr) = false ∧ r.exitCode = 0))
    ∧ (isAuthCacheValid cache now = false → authErrorIn (resp.stdout ++ resp.stderr) = false →
        resp.exitCode = 0 → checkClaudeAuth cache now (some resp) = (true, some now))
    ∧ (isAuthCacheValid cache now = true ↔
        ∃ cachedAt, cache = some cachedAt ∧ now - cachedAt < AUTH_CACHE_TTL_MS) := by
  refine ⟨?_, ?_, ?_, ?_, ?_⟩
  · intro hc he
    simp [checkClaudeAuth, hc, he]
  · intro hc
    simp [checkClaudeAuth, hc]
  · by_cases hc : isAuthCacheValid cache now = true
    · simp [checkClaudeAuth, hc]
    · rw [Bool.not_eq_true] at hc
      cases spawn with
      | none => simp [checkClaudeAuth, hc]
      | some r =>
        by_cases he : authErrorIn (r.stdout ++ r.stderr) = true
        · simp [checkClaudeAuth, hc, he]
        · rw [Bool.not_eq_true] at he
          by_cases hx : r.exitCode = 0 <;>
            simp [checkClaudeAuth, hc, he, hx]
  · intro hc he hx
    simp [checkClaudeAuth, hc, he, hx]
  · cases cache with
    | none => simp [isAuthCacheValid]
    | some cachedAt => simp [isAuthCacheValid]

/-- Witness for C10: exit code 0 with a "401" in stderr is rejected, and
    a fresh timestamp makes the check succeed without a subprocess. -/
theorem checkClaudeAuth_auth_errors_witness :
    checkClaudeAuth none 1000
      (some { stdout := "ok", stderr := "HTTP 401 Unauthorized", exitCode := 0 }) =
      (false, none)
    ∧ checkClaudeAuth (some 900) 1000 none = (true, some 900) :=
  ⟨(checkClaudeAuth_auth_errors none 1000
      { stdout := "ok", stderr := "HTTP 401 Unauthorized", exitCode := 0 } none).1
      (by decide) (by decide),
   (checkClaudeAuth_auth_errors (some 900) 1000
      { stdout := "", stderr := "", exitCode := 0 } none).2.1 (by decide)⟩

/-! ## Configuration validation (src/paths.ts) -/

/-- Configuration as stored in `.ralph/paths.json` (src/types.ts
    `PathsFileConfig`). -/
structure PathsFileConfig where
  refs : List String
  output : String
deriving DecidableEq, Repr

/-- Resolved in-memory configuration (src/types.ts `RalphConfig`). -/
structure RalphConfig where
  refs : List String
  output : String
deriving DecidableEq, Repr

/-- Check the refs of a configuration in order against the file-system
    existence oracle `exists?`; the first missing one aborts. -/
def validateRefs (ex : String → Bool) : List String → Except String Unit
  | [] => Except.ok ()
  | r :: rest =>
    if ex r then validateRefs ex rest
    else Except.error ("Refs path does not exist: " ++ r)

/-- Embedding of `validateConfig` (src/paths.ts): checks every ref path in
    order, throwing on the first missing one; the output directory is
    never checked. -/
def validateConfig (ex : String → Bool) (config : RalphConfig) : Except String Unit :=
  validateRefs ex config.refs

theorem validateRefs_ok_iff (ex : String → Bool) :
    ∀ l : List String, validateRefs ex l = Except.ok () ↔ ∀ r ∈ l, ex r = true := by
  intro l
  induction l with
  | nil => simp [validateRefs]
  | cons r rest ih =>
    by_cases h : ex r <;> simp [validateRefs, h, ih]

theorem validateRefs_first_missing (ex : String → Bool) :
    ∀ (l : List String) (r : String), l.find? (fun x => !ex x) = some r →
      validateRefs ex l = Except.error ("Refs path does not exist: " ++ r) := by
  intro l
  induction l with
  | nil => intro r h; simp [List.find?] at h
  | cons a rest ih =>
    intro r h
    by_cases ha : ex a
    · rw [List.find?_cons_of_neg] at h
      · simp [validateRefs, ha, ih r h]
      · simp [ha]
    · rw [List.find?_cons_of_pos] at h
      · cases h
        simp [validateRefs, ha]
      · simp [ha]

/-- C7: validation succeeds exactly when every ref path exists; when one
    is missing it fails with an error naming the first missing ref path in
    order; and the verdict depends only on the existence of the ref paths
    — any oracle agreeing on the refs (in particular one in which the
    output directory does not exist) validates identically. -/
theorem validateConfig_first_missing_ref (ex : String → Bool) (config : RalphConfig) :
    (validateConfig ex config = Except.ok () ↔ ∀ r ∈ config.refs, ex r = true)
    ∧ (∀ r, config.refs.find? (fun x => !ex x) = some r →
        validateConfig ex config = Except.error ("Refs path does not exist: " ++ r))
    ∧ (∀ ex2 : String → Bool, (∀ r ∈ config.refs, ex2 r = ex r) →
        validateConfig ex2 config = validateConfig ex config) := by
  refine ⟨validateRefs_ok_iff ex config.refs,
    fun r h => validateRefs_first_missing ex config.refs r h, ?_⟩
  intro ex2 hagree
  show validateRefs ex2 config.refs = validateRefs ex config.refs
  have : ∀ l : List String, (∀ r ∈ l, ex2 r = ex r) →
      validateRefs ex2 l = validateRefs ex l := by
    intro l
    induction l with
    | nil => intro _; rfl
    | cons a rest ih =>
      intro hag
      have ha := hag a (by simp)
      by_cases h : ex a
      · rw [validateRefs, validateRefs, ha, if_pos h, if_pos h]
        exact ih (fun r hr => hag r (by simp [hr]))
      · rw [validateRefs, validateRefs, ha, if_neg h, if_neg h]
  exact this config.refs hagree

/-- Witness for C7: with only the second ref missing, validation names
    that ref; an oracle that also misses the output directory agrees. -/
theorem validateConfig_first_missing_ref_witness :
    validateConfig (fun p => p = "/w/a" || p = "/w/b")
      { refs := ["/w/a", "/w/missing", "/w/b"], output := "/w/out" } =
      Except.error ("Refs path does not exist: " ++ "/w/missing")
    ∧ validateConfig (fun p => p = "/w/a")
        { refs := ["/w/a"], output := "/w/out" } = Except.ok () :=
  ⟨(validateConfig_first_missing_ref (fun p => p = "/w/a" || p = "/w/b")
      { refs := ["/w/a", "/w/missing", "/w/b"], output := "/w/out" }).2.1
      "/w/missing" (by decide),
   (validateConfig_first_missing_ref (fun p => p = "/w/a")
      { refs := ["/w/a"], output := "/w/out" }).1.mpr (by decide)⟩

/-! ## Path resolution and storage (src/paths.ts)

node's `path.resolve` for POSIX paths is embedded at the character-list
level: split on every slash, normalise the segments (dropping empty and
`.` segments and resolving `..`), and render back with a leading slash. -/

/-- Split a character list at every `/`. -/
def splitSlash : List Char → List (List Char)
  | [] => [[]]
  | c :: t =>
    let r := splitSlash t
    if c = '/' then [] :: r
    else (c :: r.headI) :: r.tail

/-- Join segments with `/` separators (no leading slash). -/
def joinSegs : List (List Char) → List Char
  | [] => []
  | [s] => s
  | s :: t :: rest => s ++ '/' :: joinSegs (t :: rest)

/-- One normalisation step: drop empty and `.` segments, let `..` remove
    the previous segment (or vanish at the root), keep everything else. -/
def normStep (acc : List (List Char)) (seg : List Char) : List (List Char) :=
  if seg = [] ∨ seg = ['.'] then acc
  else if seg = ['.', '.'] then acc.dropLast
  else acc ++ [seg]

/-- Normalise the segments of an absolute path. -/
def normSegs (segs : List (List Char)) : List (List Char) :=
  segs.foldl normStep []

/-- Render normalised segments as an absolute path string. -/
def renderAbs (segs : List (List Char)) : String :=
  String.mk ('/' :: joinSegs segs)

/-- Embedding of node's `path.resolve(base, p)` for POSIX paths with an
    absolute `base`: an absolute `p` is normalised on its own, a relative
    `p` is joined onto `base` and normalised. -/
def posixResolve (base p : String) : String :=
  if p.toList.head? = some '/' then renderAbs (normSegs (splitSlash p.toList))
  else renderAbs (normSegs (splitSlash (base.toList ++ '/' :: p.toList)))

/-- JavaScript `s.replace(pat, "")`: remove the first occurrence of `pat`
    (the string stays unchanged when `pat` does not occur). -/
def replFirst (pat : List Char) : List Char → List Char
  | [] => []
  | c :: t =>
    if pat.isPrefixOf (c :: t) then (c :: t).drop pat.length
    else c :: replFirst pat t

/-- Embedding of `toRelativePath` (src/paths.ts): `"."` for the working
    directory itself, otherwise `"./"` plus the path with the first
    occurrence of `cwd + "/"` removed. -/
def toRelativePath (absolutePath cwd : String) : String :=
  if absolutePath = cwd then "."
  else "./" ++ String.mk (replFirst (cwd.toList ++ ['/']) absolutePath.toList)

/-- Embedding of `resolvePathsConfig` (src/paths.ts): resolve every stored
    path against the working directory. -/
def resolvePathsConfig (loaded : PathsFileConfig) (cwd : String) : RalphConfig :=
  { refs := loaded.refs.map (fun r => posixResolve cwd r),
    output := posixResolve cwd loaded.output }

/-- The stored form of a resolved configuration: `toRelativePath` applied
    field-wise (the shape written back to `.ralph/paths.json`). -/
def storedForm (config : RalphConfig) (cwd : String) : PathsFileConfig :=
  { refs := config.refs.map (fun r => toRelativePath r cwd),
    output := toRelativePath config.output cwd }

/-- A well-formed path segment: non-empty, not `.` or `..`, slash-free. -/
def goodSeg (s : List Char) : Bool :=
  decide (s ≠ [] ∧ s ≠ ['.'] ∧ s ≠ ['.', '.'] ∧ '/' ∉ s)

/-- `W` is a normalised absolute working directory (at least one segment,
    all well formed). -/
def NormCwd (W : String) : Prop :=
  ∃ ws, ws ≠ [] ∧ (∀ s ∈ ws, goodSeg s = true) ∧ W = renderAbs ws

/-- `p` is a normalised absolute path equal to `W` or strictly below it. -/
def UnderOrEq (p W : String) : Prop :=
  p = W ∨ ∃ ss, ss ≠ [] ∧ (∀ s ∈ ss, goodSeg s = true) ∧
    p = String.mk (W.toList ++ '/' :: joinSegs ss)

theorem splitSlash_ne_nil : ∀ l : List Char, splitSlash l ≠ [] := by
  intro l
  cases l with
  | nil => simp [splitSlash]
  | cons c t =>
    by_cases h : c = '/' <;> simp [splitSlash, h]

theorem splitSlash_append_slash :
    ∀ a b : List Char, splitSlash (a ++ '/' :: b) = splitSlash a ++ splitSlash b := by
  intro a b
  induction a with
  | nil => simp [splitSlash]
  | cons c t ih =>
    by_cases h : c = '/'
    · simp [splitSlash, h, ih]
    · have hne := splitSlash_ne_nil t
      obtain ⟨x, xs, hx⟩ : ∃ x xs, splitSlash t = x :: xs := by
        cases hsp : splitSlash t with
        | nil => exact absurd hsp hne
        | cons x xs => exact ⟨x, xs, rfl⟩
      simp [splitSlash, h, ih, hx]

theorem splitSlash_no_slash : ∀ w : List Char, '/' ∉ w → splitSlash w = [w] := by
  intro w
  induction w with
  | nil => intro _; rfl
  | cons c t ih =>
    intro hmem
    have hc : ¬ c = '/' := fun h => hmem (by simp [h])
    have ht : '/' ∉ t := fun h => hmem (by simp [h])
    simp [splitSlash, hc, ih ht]

theorem goodSeg_no_slash {s : List Char} (h : goodSeg s = true) : '/' ∉ s := by
  simp only [goodSeg, decide_eq_true_eq] at h
  exact h.2.2.2

theorem splitSlash_joinSegs :
    ∀ ss : List (List Char), ss ≠ [] → (∀ s ∈ ss, goodSeg s = true) →
      splitSlash (joinSegs ss) = ss := by
  intro ss
  induction ss with
  | nil => intro h; exact absurd rfl h
  | cons s rest ih =>
    intro _ hgood
    cases rest with
    | nil =>
      show splitSlash (joinSegs [s]) = [s]
      exact splitSlash_no_slash s (goodSeg_no_slash (hgood s (by simp)))
    | cons t more =>
      show splitSlash (s ++ '/' :: joinSegs (t :: more)) = s :: t :: more
      rw [splitSlash_append_slash,
        splitSlash_no_slash s (goodSeg_no_slash (hgood s (by simp))),
        ih (by simp) (fun x hx => hgood x (by simp [hx]))]
      rfl

theorem foldl_normStep_good :
    ∀ (l : List (List Char)) (acc : List (List Char)),
      (∀ s ∈ l, goodSeg s = true) → l.foldl normStep acc = acc ++ l := by
  intro l
  induction l with
  | nil => intro acc _; simp
  | cons s rest ih =>
    intro acc hgood
    have hs := hgood s (by simp)
    simp only [goodSeg, decide_eq_true_eq] at hs
    have hstep : normStep acc s = acc ++ [s] := by
      simp [normStep, hs.1, hs.2.1, hs.2.2.1]
    rw [List.foldl_cons, hstep, ih (acc ++ [s]) (fun x hx => hgood x (by simp [hx]))]
    simp

theorem joinSegs_append :
    ∀ a b : List (List Char), a ≠ [] → b ≠ [] →
      joinSegs (a ++ b) = joinSegs a ++ '/' :: joinSegs b := by
  intro a b
  induction a with
  | nil => intro h _; exact absurd rfl h
  | cons s rest ih =>
    intro _ hb
    cases rest with
    | nil =>
      cases b with
      | nil => exact absurd rfl hb
      | cons t more => rfl
    | cons t more =>
      show joinSegs (s :: ((t :: more) ++ b)) = (s ++ '/' :: joinSegs (t :: more)) ++ '/' :: joinSegs b
      have hcons : ∃ u us, (t :: more) ++ b = u :: us := ⟨t, more ++ b, rfl⟩
      obtain ⟨u, us, hu⟩ := hcons
      rw [show joinSegs (s :: ((t :: more) ++ b)) = s ++ '/' :: joinSegs ((t :: more) ++ b) from by
            rw [hu]; rfl,
        ih (by simp) hb]
      simp

theorem foldl_normStep_nil_cons (ws : List (List Char))
    (hw : ∀ s ∈ ws, goodSeg s = true) :
    List.foldl normStep [] ([] :: ws) = ws := by
  rw [List.foldl_cons, show normStep [] [] = [] from by simp [normStep],
    foldl_normStep_good ws [] hw]
  simp

theorem replFirst_self (pat rest : List Char) (h : pat ≠ []) :
    replFirst pat (pat ++ rest) = rest := by
  cases pat with
  | nil => exact absurd rfl h
  | cons q qt =>
    have hpre : (q :: qt).isPrefixOf ((q :: qt) ++ rest) = true :=
      (isPrefixOf_iff_exists _ _).mpr ⟨rest, rfl⟩
    have hstep : replFirst (q :: qt) ((q :: qt) ++ rest) =
        if (q :: qt).isPrefixOf ((q :: qt) ++ rest) then
          ((q :: qt) ++ rest).drop (q :: qt).length
        else q :: replFirst (q :: qt) (qt ++ rest) := rfl
    rw [hstep, if_pos hpre, List.drop_left]

/-- Resolving an already-normalised absolute path equal to or below the
    working directory is the identity. -/
theorem posixResolve_self (W p : String) (hW : NormCwd W) (hp : UnderOrEq p W) :
    posixResolve W p = p := by
  obtain ⟨ws, hwne, hwgood, hWeq⟩ := hW
  have hWlist : W.toList = '/' :: joinSegs ws := by rw [hWeq]; rfl
  rcases hp with rfl | ⟨ss, hsne, hsgood, hpeq⟩
  · rw [posixResolve, if_pos (by rw [hWlist]; rfl), hWlist,
      show splitSlash ('/' :: joinSegs ws) = [] :: splitSlash (joinSegs ws) from by
        simp [splitSlash],
      splitSlash_joinSegs ws hwne hwgood, normSegs, foldl_normStep_nil_cons ws hwgood]
    exact hWeq.symm
  · have hplist : p.toList = ('/' :: joinSegs ws) ++ '/' :: joinSegs ss := by
      rw [hpeq]
      show W.toList ++ '/' :: joinSegs ss = _
      rw [hWlist]
    rw [posixResolve, if_pos (by rw [hplist]; rfl), hplist, splitSlash_append_slash,
      show splitSlash ('/' :: joinSegs ws) = [] :: splitSlash (joinSegs ws) from by
        simp [splitSlash],
      splitSlash_joinSegs ws hwne hwgood, splitSlash_joinSegs ss hsne hsgood, normSegs,
      show ([] :: ws) ++ ss = [] :: (ws ++ ss) from rfl,
      foldl_normStep_nil_cons (ws ++ ss)
        (fun s hs => by
          rcases List.mem_append.mp hs with h | h
          · exact hwgood s h
          · exact hsgood s h)]
    rw [hpeq, renderAbs, joinSegs_append ws ss hwne hsne]
    show String.mk ('/' :: (joinSegs ws ++ '/' :: joinSegs ss)) =
      String.mk (W.toList ++ '/' :: joinSegs ss)
    rw [hWlist]
    rfl

/-- Resolving the stored relative form of a path equal to or below the
    working directory recovers the path. -/
theorem posixResolve_toRelativePath (W p : String) (hW : NormCwd W) (hp : UnderOrEq p W) :
    posixResolve W (toRelativePath p W) = p := by
  obtain ⟨ws, hwne, hwgood, hWeq⟩ := hW
  have hWlist : W.toList = '/' :: joinSegs ws := by rw [hWeq]; rfl
  rcases hp with rfl | ⟨ss, hsne, hsgood, hpeq⟩
  · rw [toRelativePath, if_pos rfl, posixResolve,
      if_neg (by rw [show (".":String).toList = ['.'] from rfl]; simp),
      show (".":String).toList = ['.'] from rfl,
      splitSlash_append_slash, hWlist,
      show splitSlash ('/' :: joinSegs ws) = [] :: splitSlash (joinSegs ws) from by
        simp [splitSlash],
      splitSlash_joinSegs ws hwne hwgood,
      show splitSlash ['.'] = [['.']] from rfl, normSegs, List.foldl_append,
      foldl_normStep_nil_cons ws hwgood,
      show List.foldl normStep ws [['.']] = normStep ws ['.'] from rfl,
      show normStep ws ['.'] = ws from by simp [normStep]]
    exact hWeq.symm
  · have hplist : p.toList = (W.toList ++ ['/']) ++ joinSegs ss := by
      rw [hpeq]
      show W.toList ++ '/' :: joinSegs ss = _
      simp
    have hpne : p ≠ W := by
      intro h
      have := congrArg (fun s => s.toList.length) h
      simp only [hplist] at this
      simp [List.length_append] at this
    rw [toRelativePath, if_neg hpne, hplist,
      replFirst_self (W.toList ++ ['/']) (joinSegs ss) (by simp)]
    have htl : (("./":String) ++ String.mk (joinSegs ss)).toList =
        '.' :: '/' :: joinSegs ss := rfl
    rw [posixResolve, if_neg (by rw [htl]; simp), htl,
      show W.toList ++ '/' :: ('.' :: '/' :: joinSegs ss) =
        (W.toList ++ ['/', '.']) ++ '/' :: joinSegs ss from by simp,
      splitSlash_append_slash,
      show W.toList ++ ['/', '.'] = W.toList ++ '/' :: ['.'] from rfl,
      splitSlash_append_slash, hWlist,
      show splitSlash ('/' :: joinSegs ws) = [] :: splitSlash (joinSegs ws) from by
        simp [splitSlash],
      splitSlash_joinSegs ws hwne hwgood,
      show splitSlash ['.'] = [['.']] from rfl,
      splitSlash_joinSegs ss hsne hsgood, normSegs, List.foldl_append, List.foldl_append,
      foldl_normStep_nil_cons ws hwgood,
      show List.foldl normStep ws [['.']] = normStep ws ['.'] from rfl,
      show normStep ws ['.'] = ws from by simp [normStep],
      foldl_normStep_good ss ws hsgood]
    rw [hpeq, renderAbs, joinSegs_append ws ss hwne hsne]
    show String.mk ('/' :: (joinSegs ws ++ '/' :: joinSegs ss)) =
      String.mk (W.toList ++ '/' :: joinSegs ss)
    rw [hWlist]
    rfl

theorem map_id_of_mem {α : Type} (l : List α) (f : α → α) (h : ∀ a ∈ l, f a = a) :
    l.map f = l := by
  induction l with
  | nil => rfl
  | cons a t ih =>
    rw [List.map_cons, h a (by simp), ih (fun x hx => h x (by simp [hx]))]

/-- C4: for a configuration whose ref paths and output path are absolute
    paths under the working directory `W` (or equal to `W`), resolving the
    stored form of the resolved configuration gives back the resolved
    configuration. -/
theorem paths_roundtrip (loaded : PathsFileConfig) (W : String) (hW : NormCwd W)
    (hrefs : ∀ p ∈ loaded.refs, UnderOrEq p W) (hout : UnderOrEq loaded.output W) :
    resolvePathsConfig (storedForm (resolvePathsConfig loaded W) W) W =
      resolvePathsConfig loaded W := by
  have hres : resolvePathsConfig loaded W =
      { refs := loaded.refs, output := loaded.output } := by
    rw [resolvePathsConfig, posixResolve_self W loaded.output hW hout,
      map_id_of_mem loaded.refs _ (fun p hp => posixResolve_self W p hW (hrefs p hp))]
  rw [hres, storedForm, resolvePathsConfig]
  simp only [List.map_map, Function.comp_def]
  rw [map_id_of_mem loaded.refs _
      (fun p hp => posixResolve_toRelativePath W p hW (hrefs p hp)),
    posixResolve_toRelativePath W loaded.output hW hout]

/-- Witness for C4 at a concrete working directory and configuration. -/
theorem paths_roundtrip_witness :
    resolvePathsConfig
      (storedForm (resolvePathsConfig
        { refs := ["/w/a", "/w"], output := "/w/out" } "/w") "/w") "/w" =
      resolvePathsConfig { refs := ["/w/a", "/w"], output := "/w/out" } "/w" := by
  have hW : NormCwd "/w" := ⟨[['w']], by simp, by decide, by decide⟩
  refine paths_roundtrip { refs := ["/w/a", "/w"], output := "/w/out" } "/w" hW ?_ ?_
  · intro p hp
    rcases List.mem_cons.mp hp with rfl | hp2
    · exact Or.inr ⟨[['a']], by simp, by decide, by decide⟩
    · rcases List.mem_cons.mp hp2 with rfl | hp3
      · exact Or.inl rfl
      · simp at hp3
  · exact Or.inr ⟨[['o', 'u', 't']], by simp, by decide, by decide⟩

/-- C6: `toRelativePath` maps the working directory itself to the exact
    string `"."`, and every path of the form `W ++ "/" ++ s` (an absolute
    path strictly below `W`, i.e. with the prefix `W ++ "/"`) to `"./"`
    followed by the path with that prefix removed. -/
theorem toRelativePath_identity_and_strip (W s : String) :
    toRelativePath W W = "." ∧ toRelativePath (W ++ "/" ++ s) W = "./" ++ s := by
  constructor
  · rw [toRelativePath, if_pos rfl]
  · have hne : W ++ "/" ++ s ≠ W := by
      intro h
      have := congrArg String.length h
      rw [String.length_append, String.length_append] at this
      have h1 : ("/":String).length = 1 := rfl
      omega
    have hlist : (W ++ "/" ++ s).toList = (W.toList ++ ['/']) ++ s.toList := by
      show W.toList ++ ['/'] ++ s.toList = _
      rfl
    rw [toRelativePath, if_neg hne, hlist,
      replFirst_self (W.toList ++ ['/']) s.toList (by simp)]
    show "./" ++ String.mk s.toList = "./" ++ s
    rfl

end Cralph
